import Mathlib

/-!
Shallow embedding of the extraction pipeline of the react-ollama document
extraction service (source: the API handler of the repository), together
with proofs about its schema validation, heading-mode schema building,
format routing and model-response reconciliation.

JavaScript runtime values that can arise from JSON.parse are modelled by
the inductive type JsVal; JavaScript objects are modelled as association
lists in insertion order, mirroring the enumeration order of
Object.entries.  Numbers are modelled as integers: every numeric value the
pipeline manipulates (the default 0) is integral, and only the typeof tag
of a number is ever inspected.
-/

namespace Extract

/-- A JSON value as produced by JSON.parse (and as handled by the pipeline):
null, boolean, number, string, array, or object (an insertion-ordered list
of key/value fields). -/
inductive JsVal : Type where
  | null : JsVal
  | bool : Bool → JsVal
  | num : Int → JsVal
  | str : String → JsVal
  | arr : List JsVal → JsVal
  | obj : List (String × JsVal) → JsVal

/-- JavaScript typeof on a JSON value: note typeof null and typeof of an
array are both the string "object". -/
def typeofJs : JsVal → String
  | JsVal.null => "object"
  | JsVal.bool _ => "boolean"
  | JsVal.num _ => "number"
  | JsVal.str _ => "string"
  | JsVal.arr _ => "object"
  | JsVal.obj _ => "object"

/-- JavaScript truthiness of a JSON value: null, false, 0 and the empty
string are falsy; every array and object is truthy. -/
def truthy : JsVal → Bool
  | JsVal.null => false
  | JsVal.bool b => b
  | JsVal.num n => decide (n ≠ 0)
  | JsVal.str s => decide (s ≠ "")
  | JsVal.arr _ => true
  | JsVal.obj _ => true

/-- Array.isArray. -/
def isArrayJs : JsVal → Bool
  | JsVal.arr _ => true
  | _ => false

/-- JavaScript property access v[k] on a parsed JSON value, returning none
for undefined: only object values carry named properties (a parsed JSON
array has none of the names used by the pipeline). -/
def getProp : JsVal → String → Option JsVal
  | JsVal.obj fs, k => fs.lookup k
  | _, _ => none

/-- JavaScript property assignment o[k] = v on an object modelled as an
association list: an existing key keeps its position and gets the new
value, a new key is appended. -/
def objSet (fs : List (String × JsVal)) (k : String) (v : JsVal) :
    List (String × JsVal) :=
  if (fs.lookup k).isSome then
    fs.map (fun p => if p.1 = k then (p.1, v) else p)
  else fs ++ [(k, v)]

/-- Object.entries in insertion order; on an array the entries are the
stringified indices paired with the elements, on primitives there are
none. -/
def jsEntries : JsVal → List (String × JsVal)
  | JsVal.obj fs => fs
  | JsVal.arr xs => ((List.range xs.length).zip xs).map (fun p => (toString p.1, p.2))
  | _ => []

/-- String conversion of the elements of an array as performed by a
JavaScript template literal: null elements render as the empty string.
The pipeline only ever stringifies schema type tags, which are flat, so
nested arrays may also render as the empty string here. -/
def jsStringItems : List JsVal → List String
  | [] => []
  | JsVal.null :: xs => "" :: jsStringItems xs
  | JsVal.bool b :: xs => (cond b "true" "false") :: jsStringItems xs
  | JsVal.num n :: xs => toString n :: jsStringItems xs
  | JsVal.str s :: xs => s :: jsStringItems xs
  | JsVal.arr _ :: xs => "" :: jsStringItems xs
  | JsVal.obj _ :: xs => "[object Object]" :: jsStringItems xs

/-- String conversion of a single value in a template literal (String(v)):
arrays join their elements with commas, objects render as
[object Object]. -/
def jsStringOf : JsVal → String
  | JsVal.null => "null"
  | JsVal.bool b => cond b "true" "false"
  | JsVal.num n => toString n
  | JsVal.str s => s
  | JsVal.arr xs => String.intercalate "," (jsStringItems xs)
  | JsVal.obj _ => "[object Object]"

/-- The five recognized field-descriptor type tags, in the order of the
includes check of validateSchema. -/
def typeEnum : List String := ["string", "number", "boolean", "array", "object"]

/-- Validation of one property descriptor, as performed inside the
Object.entries forEach of validateSchema: reading the type field of a null
descriptor raises a TypeError in JavaScript; a missing or falsy type field
raises the must-specify-a-type error; a type outside the five-element
enumeration raises the invalid-type error (the includes check only ever
matches string values). -/
def validateProp (k : String) (v : JsVal) : Except String Unit :=
  match v with
  | JsVal.null => Except.error "TypeError: cannot read properties of null"
  | _ =>
    match getProp v "type" with
    | none => Except.error ("Property \"" ++ k ++ "\" must specify a type")
    | some tv =>
      if truthy tv = false then
        Except.error ("Property \"" ++ k ++ "\" must specify a type")
      else
        match tv with
        | JsVal.str t =>
          if t ∈ typeEnum then Except.ok ()
          else Except.error ("Property \"" ++ k ++ "\" has invalid type: " ++ t)
        | _ =>
          Except.error ("Property \"" ++ k ++ "\" has invalid type: " ++ jsStringOf tv)

/-- Sequential validation of the property entries (the forEach loop: the
first thrown error aborts the rest). -/
def validateProps : List (String × JsVal) → Except String Unit
  | [] => Except.ok ()
  | (k, v) :: rest =>
    match validateProp k v with
    | Except.error e => Except.error e
    | Except.ok _ => validateProps rest

/-- JavaScript strict equality of a possibly-undefined property value with
a string literal: true exactly when the value is that string. -/
def strictEqStr (x : Option JsVal) (lit : String) : Bool :=
  match x with
  | some (JsVal.str t) => t = lit
  | _ => false

/-- validateSchema from the API handler: the candidate must be truthy with
typeof object, its type field must be strictly equal to the string object,
its properties field must be truthy with typeof object, and every property
entry must carry a type tag from the five-element enumeration. -/
def validateSchema (schema : JsVal) : Except String Unit :=
  if truthy schema = false ∨ typeofJs schema ≠ "object" then
    Except.error "Invalid schema: must be an object"
  else if strictEqStr (getProp schema "type") "object" = false then
    Except.error "Schema type must be \"object\""
  else
    match getProp schema "properties" with
    | none => Except.error "Schema must contain \"properties\" object"
    | some p =>
      if truthy p = false ∨ typeofJs p ≠ "object" then
        Except.error "Schema must contain \"properties\" object"
      else validateProps (jsEntries p)

/-- The type-appropriate default substituted for a missing field by the
reconciler: the conditional chain over value.type of the handler (strict
string comparisons, so a non-string tag falls through to the empty
string). -/
def defaultFor (t : Option JsVal) : JsVal :=
  match t with
  | some (JsVal.str s) =>
    if s = "array" then JsVal.arr []
    else if s = "object" then JsVal.obj []
    else if s = "number" then JsVal.num 0
    else if s = "boolean" then JsVal.bool false
    else JsVal.str ""
  | _ => JsVal.str ""

/-- The reconciler type check on one field: a declared array must satisfy
Array.isArray, every other declared tag must be strictly equal to typeof
of the actual value; otherwise the field-naming error is thrown (a
non-string declared tag never equals a typeof string, and renders in the
message by template-literal string conversion). -/
def typeCheckField (k : String) (t : Option JsVal) (actual : JsVal) :
    Except String Unit :=
  match t with
  | some (JsVal.str s) =>
    if s = "array" then
      if isArrayJs actual then Except.ok ()
      else Except.error ("Field " ++ k ++ " should be an array")
    else
      if typeofJs actual = s then Except.ok ()
      else Except.error ("Field " ++ k ++ " should be of type " ++ s)
  | some tv => Except.error ("Field " ++ k ++ " should be of type " ++ jsStringOf tv)
  | none => Except.error ("Field " ++ k ++ " should be of type undefined")

/-- Boolean form of the reconciler type check (used to state conformance
hypotheses; it is proved equivalent to typeCheckField succeeding). -/
def typeMatches (t : Option JsVal) (actual : JsVal) : Bool :=
  match t with
  | some (JsVal.str s) =>
    if s = "array" then isArrayJs actual else decide (typeofJs actual = s)
  | _ => false

/-- One iteration of the reconciliation forEach for property k with
descriptor v: a key absent from the parsed content is set to its
type-appropriate default, then the (possibly defaulted) value is
type-checked. -/
def reconcileStep (parsed : List (String × JsVal)) (k : String) (v : JsVal) :
    Except String (List (String × JsVal)) :=
  let t := getProp v "type"
  match parsed.lookup k with
  | some actual => (typeCheckField k t actual).map (fun _ => parsed)
  | none =>
    let d := defaultFor t
    (typeCheckField k t d).map (fun _ => objSet parsed k d)

/-- The reconciliation loop over the schema property entries, threading the
parsed model response; the first thrown error aborts the rest. -/
def reconcileFields :
    List (String × JsVal) → List (String × JsVal) →
    Except String (List (String × JsVal))
  | [], parsed => Except.ok parsed
  | (k, v) :: rest, parsed =>
    match reconcileStep parsed k v with
    | Except.error e => Except.error e
    | Except.ok parsed2 => reconcileFields rest parsed2

/-- The handler computes the text to parse as response.message content with
the two-character empty-object literal substituted when the content is
absent or empty (the JavaScript or-else on a falsy string). -/
def effectiveReplyText : Option String → String
  | none => "\x7b\x7d"
  | some s => if s = "" then "\x7b\x7d" else s

/-- JSON.parse applied to the substituted empty-object literal yields the
empty object (behavior of the JSON library). -/
def emptyParsedReply : List (String × JsVal) := []

/-- Helper for the JavaScript split on a comma: accumulates the current
token in reverse. -/
def jsSplitCommaAux : List Char → List Char → List String
  | [], acc => [String.mk acc.reverse]
  | c :: cs, acc =>
    if c = ',' then String.mk acc.reverse :: jsSplitCommaAux cs []
    else jsSplitCommaAux cs (c :: acc)

/-- The JavaScript string split on a comma separator: the empty string
splits to one empty token, and empty tokens between, before or after
commas are kept. -/
def jsSplitComma (s : String) : List String :=
  jsSplitCommaAux s.toList []

/-- A whitespace character removed by the JavaScript trim (the ASCII range
of the ECMAScript white-space and line-terminator sets). -/
def isJsWs (c : Char) : Bool :=
  c = ' ' ∨ c = '\t' ∨ c = '\n' ∨ c = '\r' ∨ c = '\x0b' ∨ c = '\x0c'

/-- The JavaScript string trim: leading and trailing whitespace removed. -/
def jsTrim (s : String) : String :=
  String.mk (((s.toList.dropWhile isJsWs).reverse.dropWhile isJsWs).reverse)

/-- The heading list of headings mode: the input split on commas with each
token trimmed.  Empty tokens are kept: the handler applies no filter after
the map. -/
def headingTokens (headings : String) : List String :=
  (jsSplitComma headings).map jsTrim

/-- The string-typed field descriptor assigned to every heading. -/
def stringDesc : JsVal := JsVal.obj [("type", JsVal.str "string")]

/-- The properties object built by the reduce of headings mode: each
heading is assigned the string descriptor by JavaScript property
assignment, so a repeated heading overwrites its earlier entry in
place. -/
def headingProps (tokens : List String) : List (String × JsVal) :=
  tokens.foldl (fun acc h => objSet acc h stringDesc) []

/-- The schema built in headings mode: type object, the reduced properties
object, and the full heading list as required. -/
def buildHeadingsSchema (headings : String) : JsVal :=
  JsVal.obj
    [("type", JsVal.str "object"),
     ("properties", JsVal.obj (headingProps (headingTokens headings))),
     ("required", JsVal.arr ((headingTokens headings).map JsVal.str))]

/-- The headings branch of the handler: an absent or empty headings field
(a falsy string) throws the headings-required error; any other string is
split, trimmed and turned into a schema. -/
def headingsStep : Option String → Except String JsVal
  | none => Except.error "Headings are required in headings mode"
  | some h =>
    if h = "" then Except.error "Headings are required in headings mode"
    else Except.ok (buildHeadingsSchema h)

/-- The extractor families of the fileProcessors registry, in the
insertion order enumerated by Object.values. -/
inductive FileKind : Type where
  | pdf : FileKind
  | word : FileKind
  | image : FileKind
  | excel : FileKind
  | text : FileKind
  deriving DecidableEq

/-- The registry of file processors with their accepted media-type lists,
in insertion order (pdf, word, image, excel, text), copied from the
fileProcessors record. -/
def processors : List (FileKind × List String) :=
  [(FileKind.pdf, ["application/pdf"]),
   (FileKind.word,
     ["application/vnd.openxmlformats-officedocument.wordprocessingml.document",
      "application/msword"]),
   (FileKind.image, ["image/jpeg", "image/png", "image/tiff"]),
   (FileKind.excel,
     ["application/vnd.ms-excel",
      "application/vnd.openxmlformats-officedocument.spreadsheetml.sheet"]),
   (FileKind.text,
     ["text/plain", "text/markdown", "text/csv", "application/json", "text/rtf"])]

/-- The processor lookup of processFile: the first registry entry whose
accepted media-type list contains the declared type, by exact string
membership. -/
def findProcessor (mimeType : String) : Option FileKind :=
  (processors.find? (fun p => mimeType ∈ p.2)).map Prod.fst

/-- The routing part of processFile: the matched processor, or the
unsupported-file-type error naming the declared type when no accepted
list contains it. -/
def routeFile (mimeType : String) : Except String FileKind :=
  match findProcessor mimeType with
  | some k => Except.ok k
  | none => Except.error ("Unsupported file type: " ++ mimeType)

/-- The formidable filter of the handler: a part is kept only when it is
named file and its declared media type (the empty string when absent) is
accepted by some processor. -/
def formFilter (partName : String) (mimetype : Option String) : Bool :=
  partName = "file" ∧ (findProcessor (mimetype.getD "")).isSome

/-- An uploaded file part as the handler sees it: the declared media type,
and the text its processor resolves with when extraction succeeds (the
extraction effect itself is external; OCR may legitimately resolve with
the empty string). -/
structure Upload : Type where
  mimetype : Option String
  extractedText : String

/-- The document-text resolution of the handler: formidable drops file
parts rejected by the filter (so the handler sees no file for them), a
kept file with no recognized media type throws, a kept file otherwise has
its buffer routed through processFile and its extracted text replaces the
text field; with no kept file the text field is used as is. -/
def docTextStep (file : Option Upload) (text : String) : Except String String :=
  let kept : Option Upload :=
    match file with
    | some f => if formFilter "file" f.mimetype then some f else none
    | none => none
  match kept with
  | some f =>
    match f.mimetype with
    | none => Except.error "File type not recognized"
    | some m =>
      match routeFile m with
      | Except.error e => Except.error e
      | Except.ok _ => Except.ok f.extractedText
  | none => Except.ok text

/-- The guard directly after document-text resolution: an empty (falsy)
document text throws the content-required error. -/
def requireContent (s : String) : Except String String :=
  if s = "" then Except.error "Document content is required" else Except.ok s

/-- Document-text resolution followed by the emptiness guard, as the
handler executes them in sequence. -/
def docTextChecked (file : Option Upload) (text : String) : Except String String :=
  match docTextStep file text with
  | Except.error e => Except.error e
  | Except.ok s => requireContent s

/-- The distinct keys of a token list in first-occurrence order, relative
to a set of already-seen keys: the shape of the key list produced by
repeated JavaScript property assignment. -/
def newKeys (seen : List String) : List String → List String
  | [] => []
  | t :: ts => if t ∈ seen then newKeys seen ts else t :: newKeys (t :: seen) ts

/-- The validity condition asserted by the specification for schema
validation, stated in its words: the candidate is an object whose type
field is the string object, whose properties field is a non-null value of
typeof object, and every property value carries a type field drawn from
the five-element enumeration. -/
def claimedSchemaValid (s : JsVal) : Prop :=
  (∃ fs, s = JsVal.obj fs) ∧
  getProp s "type" = some (JsVal.str "object") ∧
  ∃ p, getProp s "properties" = some p ∧ p ≠ JsVal.null ∧ typeofJs p = "object" ∧
    ∀ q ∈ jsEntries p, ∃ t, t ∈ typeEnum ∧ getProp q.2 "type" = some (JsVal.str t)

theorem lookup_cons_self (a : String) (b : JsVal) (l : List (String × JsVal)) :
    ((a, b) :: l).lookup a = some b := by
  simp [List.lookup]

theorem lookup_cons_ne (a k : String) (b : JsVal) (l : List (String × JsVal))
    (h : k ≠ a) : ((a, b) :: l).lookup k = l.lookup k := by
  simp only [List.lookup, beq_eq_false_iff_ne.mpr h]

theorem lookup_append_or (l1 l2 : List (String × JsVal)) (k : String) :
    (l1 ++ l2).lookup k = ((l1.lookup k).or (l2.lookup k)) := by
  induction l1 with
  | nil => simp [List.lookup]
  | cons p l ih =>
    obtain ⟨a, b⟩ := p
    by_cases h : k = a
    · subst h
      simp [List.lookup]
    · simp only [List.cons_append, lookup_cons_ne _ _ _ _ h, ih]

theorem objSet_of_none (fs : List (String × JsVal)) (k : String) (v : JsVal)
    (h : fs.lookup k = none) : objSet fs k v = fs ++ [(k, v)] := by
  simp [objSet, h]

theorem objSet_keys_of_isSome (fs : List (String × JsVal)) (k : String) (v : JsVal)
    (h : (fs.lookup k).isSome) :
    (objSet fs k v).map Prod.fst = fs.map Prod.fst := by
  simp only [objSet, h, if_pos, List.map_map]
  apply List.map_congr_left
  intro p _
  by_cases hp : p.1 = k <;> simp [hp]

theorem lookup_singleton_ne (k a : String) (v : JsVal) (h : k ≠ a) :
    ([(a, v)] : List (String × JsVal)).lookup k = none := by
  rw [lookup_cons_ne _ _ _ _ h]
  rfl

theorem typeCheckField_ok_iff (k : String) (t : Option JsVal) (a : JsVal) :
    typeCheckField k t a = Except.ok () ↔ typeMatches t a = true := by
  cases t with
  | none => simp [typeCheckField, typeMatches]
  | some tv =>
    cases tv with
    | str s =>
      by_cases hs : s = "array"
      · subst hs
        cases hA : isArrayJs a <;> simp [typeCheckField, typeMatches, hA]
      · by_cases hT : typeofJs a = s <;>
          simp [typeCheckField, typeMatches, hs, hT]
    | null => simp [typeCheckField, typeMatches]
    | bool b => simp [typeCheckField, typeMatches]
    | num n => simp [typeCheckField, typeMatches]
    | arr xs => simp [typeCheckField, typeMatches]
    | obj fs => simp [typeCheckField, typeMatches]

theorem defaultFor_matches (s : String) (hs : s ∈ typeEnum) :
    typeMatches (some (JsVal.str s)) (defaultFor (some (JsVal.str s))) = true := by
  simp only [typeEnum, List.mem_cons, List.mem_singleton] at hs
  rcases hs with rfl | rfl | rfl | rfl | rfl | h
  · decide
  · decide
  · decide
  · decide
  · decide
  · simp at h



theorem reconcileFields_ok
    (props : List (String × JsVal)) (parsed : List (String × JsVal))
    (hnd : (props.map Prod.fst).Nodup)
    (ht : ∀ p ∈ props, ∃ s, s ∈ typeEnum ∧ getProp p.2 "type" = some (JsVal.str s))
    (hc : ∀ p ∈ props, ∀ a, parsed.lookup p.1 = some a →
        typeMatches (getProp p.2 "type") a = true) :
    ∃ m, reconcileFields props parsed = Except.ok m ∧
      (∀ k, (parsed.lookup k).isSome → m.lookup k = parsed.lookup k) ∧
      (∀ p ∈ props, parsed.lookup p.1 = none →
        m.lookup p.1 = some (defaultFor (getProp p.2 "type"))) := by
  induction props generalizing parsed with
  | nil =>
    exact ⟨parsed, rfl, fun k _ => rfl, by simp⟩
  | cons hd rest ih =>
    obtain ⟨k0, v0⟩ := hd
    have hnd' : (rest.map Prod.fst).Nodup := (List.nodup_cons.mp hnd).2
    have hk0 : k0 ∉ rest.map Prod.fst := (List.nodup_cons.mp hnd).1
    cases hL : parsed.lookup k0 with
    | some a0 =>
      have hm : typeMatches (getProp v0 "type") a0 = true :=
        hc (k0, v0) (List.mem_cons_self _ _) a0 hL
      have hstep : reconcileStep parsed k0 v0 = Except.ok parsed := by
        simp [reconcileStep, hL, Except.map, (typeCheckField_ok_iff ..).mpr hm]
      obtain ⟨m, hok, hpres, hdef⟩ := ih parsed hnd'
        (fun p hp => ht p (List.mem_cons_of_mem _ hp))
        (fun p hp a ha => hc p (List.mem_cons_of_mem _ hp) a ha)
      refine ⟨m, ?_, hpres, ?_⟩
      · simp [reconcileFields, hstep, hok]
      · intro p hp hnone
        rcases List.mem_cons.mp hp with rfl | hp'
        · simp [hL] at hnone
        · exact hdef p hp' hnone
    | none =>
      obtain ⟨s0, hs0, hts⟩ := ht (k0, v0) (List.mem_cons_self _ _)
      have hmatch : typeMatches (getProp v0 "type") (defaultFor (getProp v0 "type")) = true := by
        rw [hts]; exact defaultFor_matches s0 hs0
      have hstep : reconcileStep parsed k0 v0 =
          Except.ok (parsed ++ [(k0, defaultFor (getProp v0 "type"))]) := by
        simp [reconcileStep, hL, Except.map, (typeCheckField_ok_iff ..).mpr hmatch,
          objSet_of_none parsed k0 _ hL]
      set d := defaultFor (getProp v0 "type") with hd
      have hp2look : ∀ k, k ≠ k0 → (parsed ++ [(k0, d)]).lookup k = parsed.lookup k := by
        intro k hk
        rw [lookup_append_or, lookup_singleton_ne k k0 d hk]
        cases parsed.lookup k <;> rfl
      have hp2k0 : (parsed ++ [(k0, d)]).lookup k0 = some d := by
        rw [lookup_append_or, hL, lookup_cons_self]
        rfl
      obtain ⟨m, hok, hpres, hdef⟩ := ih (parsed ++ [(k0, d)]) hnd'
        (fun p hp => ht p (List.mem_cons_of_mem _ hp))
        (fun p hp a ha => by
          have hne : p.1 ≠ k0 := fun h => hk0 (h ▸ List.mem_map_of_mem Prod.fst hp)
          exact hc p (List.mem_cons_of_mem _ hp) a (by rwa [hp2look p.1 hne] at ha))
      refine ⟨m, ?_, ?_, ?_⟩
      · simp [reconcileFields, hstep, hok]
      · intro k hk
        have hne : k ≠ k0 := fun h => by rw [h, hL] at hk; simp at hk
        rw [hpres k (by rwa [hp2look k hne]), hp2look k hne]
      · intro p hp hnone
        rcases List.mem_cons.mp hp with rfl | hp'
        · rw [hpres k0 (by rw [hp2k0]; rfl), hp2k0]
        · have hne : p.1 ≠ k0 := fun h => hk0 (h ▸ List.mem_map_of_mem Prod.fst hp')
          exact hdef p hp' (by rwa [hp2look p.1 hne])

theorem reconcileFields_conformant
    (props : List (String × JsVal)) (parsed : List (String × JsVal))
    (hc : ∀ p ∈ props, ∃ a, parsed.lookup p.1 = some a ∧
        typeMatches (getProp p.2 "type") a = true) :
    reconcileFields props parsed = Except.ok parsed := by
  induction props with
  | nil => rfl
  | cons hd rest ih =>
    obtain ⟨k0, v0⟩ := hd
    obtain ⟨a0, hL, hm⟩ := hc (k0, v0) (List.mem_cons_self _ _)
    have hstep : reconcileStep parsed k0 v0 = Except.ok parsed := by
      simp [reconcileStep, hL, Except.map, (typeCheckField_ok_iff ..).mpr hm]
    simp [reconcileFields, hstep, ih (fun p hp => hc p (List.mem_cons_of_mem _ hp))]

theorem reconcileFields_error_of_mismatch
    (props : List (String × JsVal)) (parsed : List (String × JsVal))
    (hnd : (props.map Prod.fst).Nodup)
    (ht : ∀ p ∈ props, ∃ s, s ∈ typeEnum ∧ getProp p.2 "type" = some (JsVal.str s))
    (hm : ∃ p ∈ props, ∃ a, parsed.lookup p.1 = some a ∧
        typeMatches (getProp p.2 "type") a = false) :
    ∃ k s a, (∃ v, (k, v) ∈ props ∧ getProp v "type" = some (JsVal.str s)) ∧
      parsed.lookup k = some a ∧ typeMatches (some (JsVal.str s)) a = false ∧
      reconcileFields props parsed =
        Except.error (if s = "array" then "Field " ++ k ++ " should be an array"
          else "Field " ++ k ++ " should be of type " ++ s) := by
  induction props generalizing parsed with
  | nil => simp at hm
  | cons hd rest ih =>
    obtain ⟨k0, v0⟩ := hd
    obtain ⟨s0, hs0, ht0⟩ := ht (k0, v0) (List.mem_cons_self _ _)
    have hnd' : (rest.map Prod.fst).Nodup := (List.nodup_cons.mp hnd).2
    have hk0 : k0 ∉ rest.map Prod.fst := (List.nodup_cons.mp hnd).1
    cases hL : parsed.lookup k0 with
    | some a0 =>
      cases hM : typeMatches (getProp v0 "type") a0 with
      | false =>
        refine ⟨k0, s0, a0, ⟨v0, List.mem_cons_self _ _, ht0⟩, hL, by rwa [ht0] at hM, ?_⟩
        have herr : typeCheckField k0 (getProp v0 "type") a0 =
            Except.error (if s0 = "array" then "Field " ++ k0 ++ " should be an array"
              else "Field " ++ k0 ++ " should be of type " ++ s0) := by
          rw [ht0] at hM ⊢
          by_cases hsA : s0 = "array"
          · subst hsA
            simp [typeMatches] at hM
            simp [typeCheckField, hM]
          · simp [typeMatches, hsA] at hM
            simp [typeCheckField, hsA, hM]
        simp [reconcileFields, reconcileStep, hL, herr, Except.map]
      | true =>
        have hstep : reconcileStep parsed k0 v0 = Except.ok parsed := by
          simp [reconcileStep, hL, Except.map, (typeCheckField_ok_iff ..).mpr hM]
        obtain ⟨p, hp, a, hpa, hpm⟩ := hm
        have hp' : p ∈ rest := by
          rcases List.mem_cons.mp hp with rfl | h
          · exfalso
            rw [hL] at hpa
            injection hpa with h2
            subst h2
            rw [hM] at hpm
            simp at hpm
          · exact h
        obtain ⟨k, s, a', hv, hla, hms, heq⟩ := ih parsed hnd'
          (fun q hq => ht q (List.mem_cons_of_mem _ hq)) ⟨p, hp', a, hpa, hpm⟩
        obtain ⟨v, hvmem, hvt⟩ := hv
        exact ⟨k, s, a', ⟨v, List.mem_cons_of_mem _ hvmem, hvt⟩, hla, hms, by
          simp [reconcileFields, hstep, heq]⟩
    | none =>
      have hmatch : typeMatches (getProp v0 "type") (defaultFor (getProp v0 "type")) = true := by
        rw [ht0]; exact defaultFor_matches s0 hs0
      have hstep : reconcileStep parsed k0 v0 =
          Except.ok (parsed ++ [(k0, defaultFor (getProp v0 "type"))]) := by
        simp [reconcileStep, hL, Except.map, (typeCheckField_ok_iff ..).mpr hmatch,
          objSet_of_none parsed k0 _ hL]
      set d := defaultFor (getProp v0 "type") with hd
      have hp2look : ∀ k, k ≠ k0 → (parsed ++ [(k0, d)]).lookup k = parsed.lookup k := by
        intro k hk
        rw [lookup_append_or, lookup_singleton_ne k k0 d hk]
        cases parsed.lookup k <;> rfl
      obtain ⟨p, hp, a, hpa, hpm⟩ := hm
      have hp' : p ∈ rest := by
        rcases List.mem_cons.mp hp with rfl | h
        · rw [hL] at hpa; simp at hpa
        · exact h
      have hne : p.1 ≠ k0 := fun h => hk0 (h ▸ List.mem_map_of_mem Prod.fst hp')
      obtain ⟨k, s, a', hv, hla, hms, heq⟩ := ih (parsed ++ [(k0, d)]) hnd'
        (fun q hq => ht q (List.mem_cons_of_mem _ hq))
        ⟨p, hp', a, by rw [hp2look p.1 hne]; exact hpa, hpm⟩
      obtain ⟨v, hvmem, hvt⟩ := hv
      have hkne : k ≠ k0 := fun h =>
        hk0 (h ▸ List.mem_map_of_mem Prod.fst hvmem)
      exact ⟨k, s, a', ⟨v, List.mem_cons_of_mem _ hvmem, hvt⟩,
        by rw [← hp2look k hkne]; exact hla, hms, by
          simp [reconcileFields, hstep, heq]⟩



theorem lookup_isSome_iff_mem (fs : List (String × JsVal)) (k : String) :
    (fs.lookup k).isSome = true ↔ k ∈ fs.map Prod.fst := by
  induction fs with
  | nil => simp [List.lookup]
  | cons p l ih =>
    obtain ⟨a, b⟩ := p
    by_cases h : k = a
    · subst h
      simp [lookup_cons_self]
    · simp [lookup_cons_ne _ _ _ _ h, ih, h]

theorem lookup_eq_none_iff_not_mem (fs : List (String × JsVal)) (k : String) :
    fs.lookup k = none ↔ k ∉ fs.map Prod.fst := by
  rw [← lookup_isSome_iff_mem, ← Option.not_isSome_iff_eq_none]

theorem objSet_keys_of_none (fs : List (String × JsVal)) (k : String) (v : JsVal)
    (h : fs.lookup k = none) :
    (objSet fs k v).map Prod.fst = fs.map Prod.fst ++ [k] := by
  simp [objSet, h]

theorem newKeys_congr (seen1 seen2 ts : List String)
    (h : ∀ x, x ∈ seen1 ↔ x ∈ seen2) : newKeys seen1 ts = newKeys seen2 ts := by
  induction ts generalizing seen1 seen2 with
  | nil => rfl
  | cons t ts ih =>
    by_cases hmem : t ∈ seen1
    · simp only [newKeys, if_pos hmem, if_pos ((h t).mp hmem)]
      exact ih seen1 seen2 h
    · simp only [newKeys, if_neg hmem, if_neg (fun hx => hmem ((h t).mpr hx))]
      rw [ih (t :: seen1) (t :: seen2) (fun x => by simp [h x])]

theorem headingProps_keys_aux (ts : List String) (acc : List (String × JsVal)) :
    ((ts.foldl (fun a h => objSet a h stringDesc) acc).map Prod.fst) =
      acc.map Prod.fst ++ newKeys (acc.map Prod.fst) ts := by
  induction ts generalizing acc with
  | nil => simp [newKeys]
  | cons t ts ih =>
    simp only [List.foldl_cons]
    by_cases hmem : t ∈ acc.map Prod.fst
    · have hsome : (acc.lookup t).isSome := (lookup_isSome_iff_mem acc t).mpr hmem
      rw [ih (objSet acc t stringDesc), objSet_keys_of_isSome _ _ _ hsome]
      simp only [newKeys, if_pos hmem]
    · have hnone : acc.lookup t = none := (lookup_eq_none_iff_not_mem acc t).mpr hmem
      rw [ih (objSet acc t stringDesc), objSet_keys_of_none _ _ _ hnone]
      simp only [newKeys, if_neg hmem]
      rw [List.append_assoc, List.singleton_append]
      rw [newKeys_congr (acc.map Prod.fst ++ [t]) (t :: acc.map Prod.fst) ts
        (fun x => by simp [or_comm])]

theorem headingProps_keys (ts : List String) :
    (headingProps ts).map Prod.fst = newKeys [] ts := by
  rw [headingProps, headingProps_keys_aux ts []]
  rfl

theorem headingProps_values (ts : List String) :
    ∀ p ∈ headingProps ts, p.2 = stringDesc := by
  rw [headingProps]
  suffices h : ∀ acc : List (String × JsVal), (∀ p ∈ acc, p.2 = stringDesc) →
      ∀ p ∈ ts.foldl (fun a h => objSet a h stringDesc) acc, p.2 = stringDesc by
    exact h [] (by simp)
  induction ts with
  | nil => intro acc hacc; simpa using hacc
  | cons t ts ih =>
    intro acc hacc
    simp only [List.foldl_cons]
    apply ih
    intro p hp
    by_cases hsome : (acc.lookup t).isSome
    · simp only [objSet, hsome, if_pos] at hp
      obtain ⟨q, hq, hpq⟩ := List.mem_map.mp hp
      by_cases hq1 : q.1 = t
      · rw [if_pos hq1] at hpq
        rw [← hpq]
      · rw [if_neg hq1] at hpq
        rw [← hpq]
        exact hacc q hq
    · rw [objSet, if_neg hsome] at hp
      rcases List.mem_append.mp hp with hp | hp
      · exact hacc p hp
      · simp at hp
        rw [hp]

theorem mem_newKeys (seen ts : List String) (x : String) :
    x ∈ newKeys seen ts ↔ x ∈ ts ∧ x ∉ seen := by
  induction ts generalizing seen with
  | nil => simp [newKeys]
  | cons t ts ih =>
    by_cases hmem : t ∈ seen
    · rw [newKeys, if_pos hmem, ih]
      constructor
      · rintro ⟨hx, hn⟩
        exact ⟨List.mem_cons_of_mem _ hx, hn⟩
      · rintro ⟨hx, hn⟩
        rcases List.mem_cons.mp hx with rfl | hx
        · exact absurd hmem hn
        · exact ⟨hx, hn⟩
    · rw [newKeys, if_neg hmem]
      constructor
      · intro hx
        rcases List.mem_cons.mp hx with rfl | hx
        · exact ⟨List.mem_cons_self _ _, hmem⟩
        · obtain ⟨h1, h2⟩ := (ih (t :: seen)).mp hx
          exact ⟨List.mem_cons_of_mem _ h1, fun hh => h2 (List.mem_cons_of_mem _ hh)⟩
      · rintro ⟨hx, hn⟩
        rcases List.mem_cons.mp hx with rfl | hx
        · exact List.mem_cons_self _ _
        · by_cases hxt : x = t
          · subst hxt
            exact List.mem_cons_self _ _
          · refine List.mem_cons_of_mem _ ((ih (t :: seen)).mpr ⟨hx, ?_⟩)
            intro hh
            rcases List.mem_cons.mp hh with h | h
            · exact hxt h
            · exact hn h

theorem newKeys_nodup (seen ts : List String) : (newKeys seen ts).Nodup := by
  induction ts generalizing seen with
  | nil => simp [newKeys]
  | cons t ts ih =>
    by_cases hmem : t ∈ seen
    · rw [newKeys, if_pos hmem]
      exact ih seen
    · rw [newKeys, if_neg hmem]
      refine List.nodup_cons.mpr ⟨?_, ih (t :: seen)⟩
      intro hmem2
      exact ((mem_newKeys (t :: seen) ts t).mp hmem2).2 (List.mem_cons_self _ _)

theorem newKeys_length_le (seen ts : List String) :
    (newKeys seen ts).length ≤ ts.length := by
  induction ts generalizing seen with
  | nil => simp [newKeys]
  | cons t ts ih =>
    by_cases hmem : t ∈ seen
    · rw [newKeys, if_pos hmem]
      exact Nat.le_succ_of_le (ih seen)
    · rw [newKeys, if_neg hmem]
      exact Nat.succ_le_succ (ih (t :: seen))

theorem newKeys_length_lt_of_mem_seen (seen ts : List String) (t : String)
    (h1 : t ∈ ts) (h2 : t ∈ seen) : (newKeys seen ts).length < ts.length := by
  induction ts generalizing seen with
  | nil => cases h1
  | cons u ts ih =>
    by_cases hmem : u ∈ seen
    · rw [newKeys, if_pos hmem]
      exact Nat.lt_succ_of_le (newKeys_length_le seen ts)
    · rw [newKeys, if_neg hmem]
      have hut : t ≠ u := fun h => hmem (h ▸ h2)
      have h1' : t ∈ ts := by
        rcases List.mem_cons.mp h1 with h | h
        · exact absurd h hut
        · exact h
      exact Nat.succ_lt_succ (ih (u :: seen) h1' (List.mem_cons_of_mem _ h2))

theorem newKeys_length_lt_of_dup (seen ts : List String) (h : ¬ ts.Nodup) :
    (newKeys seen ts).length < ts.length := by
  induction ts generalizing seen with
  | nil => exact absurd List.nodup_nil h
  | cons t ts ih =>
    by_cases hmem : t ∈ seen
    · rw [newKeys, if_pos hmem]
      exact Nat.lt_succ_of_le (newKeys_length_le seen ts)
    · rw [newKeys, if_neg hmem]
      by_cases hin : t ∈ ts
      · exact Nat.succ_lt_succ
          (newKeys_length_lt_of_mem_seen (t :: seen) ts t hin (List.mem_cons_self _ _))
      · have hdup : ¬ ts.Nodup := fun hnd => h (List.nodup_cons.mpr ⟨hin, hnd⟩)
        exact Nat.succ_lt_succ (ih (t :: seen) hdup)

theorem newKeys_eq_self (seen ts : List String) (hd : ts.Nodup)
    (hs : ∀ x ∈ ts, x ∉ seen) : newKeys seen ts = ts := by
  induction ts generalizing seen with
  | nil => rfl
  | cons t ts ih =>
    rw [newKeys, if_neg (hs t (List.mem_cons_self _ _))]
    congr 1
    apply ih (t :: seen) (List.nodup_cons.mp hd).2
    intro x hx hmem
    rcases List.mem_cons.mp hmem with rfl | hmem
    · exact (List.nodup_cons.mp hd).1 hx
    · exact hs x (List.mem_cons_of_mem _ hx) hmem

theorem strictEqStr_iff (x : Option JsVal) (lit : String) :
    strictEqStr x lit = true ↔ x = some (JsVal.str lit) := by
  cases x with
  | none => simp [strictEqStr]
  | some v => cases v <;> simp [strictEqStr]

theorem validateProp_ok_iff (k : String) (v : JsVal) :
    validateProp k v = Except.ok () ↔
      ∃ t, t ∈ typeEnum ∧ getProp v "type" = some (JsVal.str t) := by
  cases v with
  | null => simp [validateProp, getProp]
  | bool b => simp [validateProp, getProp]
  | num n => simp [validateProp, getProp]
  | str s => simp [validateProp, getProp]
  | arr xs => simp [validateProp, getProp]
  | obj fs =>
    cases hgp : fs.lookup "type" with
    | none => simp [validateProp, getProp, hgp]
    | some tv =>
      cases tv with
      | str t =>
        by_cases ht : t = ""
        · subst ht
          simp [validateProp, getProp, hgp, truthy, typeEnum]
        · by_cases henum : t ∈ typeEnum
          · simp [validateProp, getProp, hgp, truthy, ht, henum]
          · simp [validateProp, getProp, hgp, truthy, ht, henum]
      | null => simp [validateProp, getProp, hgp, truthy]
      | bool b => cases b <;> simp [validateProp, getProp, hgp, truthy]
      | num n => by_cases hn : n = 0 <;> simp [validateProp, getProp, hgp, truthy, hn]
      | arr xs => simp [validateProp, getProp, hgp, truthy]
      | obj gs => simp [validateProp, getProp, hgp, truthy]

theorem validateProps_ok_iff (l : List (String × JsVal)) :
    validateProps l = Except.ok () ↔
      ∀ q ∈ l, ∃ t, t ∈ typeEnum ∧ getProp q.2 "type" = some (JsVal.str t) := by
  induction l with
  | nil => simp [validateProps]
  | cons q rest ih =>
    obtain ⟨k, v⟩ := q
    cases hv : validateProp k v with
    | error e =>
      simp only [validateProps, hv]
      constructor
      · intro h
        cases h
      · intro h
        have := (validateProp_ok_iff k v).mpr
          (by simpa using h (k, v) (List.mem_cons_self _ _))
        rw [hv] at this
        cases this
    | ok u =>
      obtain ⟨⟩ := u
      simp only [validateProps, hv, ih]
      constructor
      · intro h q hq
        rcases List.mem_cons.mp hq with rfl | hq'
        · simpa using (validateProp_ok_iff k v).mp hv
        · exact h q hq'
      · intro h q hq
        exact h q (List.mem_cons_of_mem _ hq)

theorem validateSchema_ok_iff (s : JsVal) :
    validateSchema s = Except.ok () ↔ claimedSchemaValid s := by
  cases s with
  | null => simp [validateSchema, truthy, claimedSchemaValid]
  | bool b => simp [validateSchema, typeofJs, truthy, claimedSchemaValid]
  | num n => simp [validateSchema, typeofJs, truthy, claimedSchemaValid]
  | str t => simp [validateSchema, typeofJs, truthy, claimedSchemaValid]
  | arr xs =>
    simp [validateSchema, typeofJs, truthy, getProp, strictEqStr, claimedSchemaValid]
  | obj fs =>
    have houter : (truthy (JsVal.obj fs) = false ∨ typeofJs (JsVal.obj fs) ≠ "object") = False := by
      simp [truthy, typeofJs]
    cases hty : fs.lookup "type" with
    | none =>
      simp [validateSchema, houter, getProp, hty, strictEqStr, claimedSchemaValid]
    | some tv =>
      by_cases hobj : tv = JsVal.str "object"
      · subst hobj
        cases hpp : fs.lookup "properties" with
        | none =>
          simp [validateSchema, houter, getProp, hty, hpp, strictEqStr, claimedSchemaValid]
        | some p =>
          cases p with
          | null =>
            simp [validateSchema, houter, getProp, hty, hpp, strictEqStr,
              claimedSchemaValid, truthy, typeofJs]
          | bool b =>
            simp [validateSchema, houter, getProp, hty, hpp, strictEqStr,
              claimedSchemaValid, truthy, typeofJs]
          | num n =>
            simp [validateSchema, houter, getProp, hty, hpp, strictEqStr,
              claimedSchemaValid, truthy, typeofJs]
          | str w =>
            simp [validateSchema, houter, getProp, hty, hpp, strictEqStr,
              claimedSchemaValid, truthy, typeofJs]
          | arr ys =>
            simp [validateSchema, houter, getProp, hty, hpp, strictEqStr,
              claimedSchemaValid, truthy, typeofJs, validateProps_ok_iff]
          | obj gs =>
            simp [validateSchema, houter, getProp, hty, hpp, strictEqStr,
              claimedSchemaValid, truthy, typeofJs, validateProps_ok_iff, jsEntries]
      · have hne : strictEqStr (some tv) "object" = false := by
          cases tv with
          | str t =>
            simp only [strictEqStr, decide_eq_false_iff_not]
            intro h
            exact hobj (by rw [h])
          | null => rfl
          | bool b => rfl
          | num n => rfl
          | arr xs => rfl
          | obj fs => rfl
        simp [validateSchema, houter, getProp, hty, hne, claimedSchemaValid, hobj]



/-- C1: for every schema properties object with pairwise-distinct keys and
type tags from the five-element enumeration, and every JSON-parsed model
response whose present declared fields pass the reconciler type check,
reconciliation succeeds rather than failing, substitutes the
type-appropriate default for each declared property missing from the
response (the empty array for array, the empty object for object, 0 for
number, false for boolean, the empty string for string), and keeps every
present field unchanged. -/
theorem claim_C1_missing_fields_defaulted
    (props parsed : List (String × JsVal))
    (hnd : (props.map Prod.fst).Nodup)
    (ht : ∀ p ∈ props, ∃ s, s ∈ typeEnum ∧ getProp p.2 "type" = some (JsVal.str s))
    (hc : ∀ p ∈ props, ∀ a, parsed.lookup p.1 = some a →
        typeMatches (getProp p.2 "type") a = true) :
    ∃ m, reconcileFields props parsed = Except.ok m ∧
      (∀ p ∈ props, ∀ s, getProp p.2 "type" = some (JsVal.str s) →
        parsed.lookup p.1 = none →
        m.lookup p.1 = some (
          if s = "array" then JsVal.arr []
          else if s = "object" then JsVal.obj []
          else if s = "number" then JsVal.num 0
          else if s = "boolean" then JsVal.bool false
          else JsVal.str "")) ∧
      (∀ k, (parsed.lookup k).isSome → m.lookup k = parsed.lookup k) := by
  obtain ⟨m, hok, hpres, hdef⟩ := reconcileFields_ok props parsed hnd ht hc
  refine ⟨m, hok, ?_, hpres⟩
  intro p hp s hs hnone
  have hd := hdef p hp hnone
  rw [hs] at hd
  rw [hd]
  rfl

/-- Witness for C1 at the worked example of the specification: schema with
a of type string and b of type number, model output holding only a bound
to "x"; reconciliation succeeds, a keeps "x" and b is defaulted to 0. -/
theorem claim_C1_missing_fields_defaulted_witness :
    ∃ m, reconcileFields
        [("a", JsVal.obj [("type", JsVal.str "string")]),
         ("b", JsVal.obj [("type", JsVal.str "number")])]
        [("a", JsVal.str "x")] = Except.ok m ∧
      (∀ p ∈ [("a", JsVal.obj [("type", JsVal.str "string")]),
              ("b", JsVal.obj [("type", JsVal.str "number")])],
        ∀ s, getProp p.2 "type" = some (JsVal.str s) →
        (([("a", JsVal.str "x")] : List (String × JsVal)).lookup p.1) = none →
        m.lookup p.1 = some (
          if s = "array" then JsVal.arr []
          else if s = "object" then JsVal.obj []
          else if s = "number" then JsVal.num 0
          else if s = "boolean" then JsVal.bool false
          else JsVal.str "")) ∧
      (∀ k, (([("a", JsVal.str "x")] : List (String × JsVal)).lookup k).isSome →
        m.lookup k = ([("a", JsVal.str "x")] : List (String × JsVal)).lookup k) :=
  claim_C1_missing_fields_defaulted
    [("a", JsVal.obj [("type", JsVal.str "string")]),
     ("b", JsVal.obj [("type", JsVal.str "number")])]
    [("a", JsVal.str "x")]
    (by decide)
    (by
      intro p hp
      rcases List.mem_cons.mp hp with rfl | hp
      · exact ⟨"string", by decide, rfl⟩
      · rcases List.mem_cons.mp hp with rfl | hp
        · exact ⟨"number", by decide, rfl⟩
        · cases hp)
    (by
      intro p hp a ha
      rcases List.mem_cons.mp hp with rfl | hp
      · rw [lookup_cons_self] at ha
        injection ha with ha
        subst ha
        rfl
      · rcases List.mem_cons.mp hp with rfl | hp
        · rw [lookup_cons_ne _ _ _ _ (by decide)] at ha
          cases ha
        · cases hp)

/-- C2: validateSchema succeeds exactly when the candidate is an object
whose type field is strictly the string object, whose properties field is
a non-null value of typeof object, and every property entry carries a type
field drawn from the five-element enumeration; consequently a property
typed outside the enumeration always fails validation. -/
theorem claim_C2_validation_iff (s : JsVal) :
    validateSchema s = Except.ok () ↔ claimedSchemaValid s :=
  validateSchema_ok_iff s



/-- C3 counterexample, refuting both deviant clauses of the claim at
explicit inputs.  First, the headings input consisting of a single comma
trims to two empty tokens, so by the claim no tokens remain and the
builder must fail with EmptyHeadingList; the handler instead accepts it
(only an absent or empty headings string is rejected) and builds a schema
whose properties object has the empty-string key and whose required list
holds two empty strings.  Second, on the input a-comma-space-comma-b the
claim demands that the empty middle token be dropped so the keys are
exactly a and b; the handler instead keeps it, producing the three keys
a, empty string, b and a three-element required list. -/
theorem claim_C3_counterexample :
    headingsStep (some ",") =
      Except.ok (JsVal.obj
        [("type", JsVal.str "object"),
         ("properties", JsVal.obj [("", JsVal.obj [("type", JsVal.str "string")])]),
         ("required", JsVal.arr [JsVal.str "", JsVal.str ""])]) ∧
    headingsStep (some "a, ,b") =
      Except.ok (JsVal.obj
        [("type", JsVal.str "object"),
         ("properties", JsVal.obj
           [("a", JsVal.obj [("type", JsVal.str "string")]),
            ("", JsVal.obj [("type", JsVal.str "string")]),
            ("b", JsVal.obj [("type", JsVal.str "string")])]),
         ("required", JsVal.arr [JsVal.str "a", JsVal.str "", JsVal.str "b"])]) :=
  ⟨rfl, rfl⟩

/-- C3 amended: in headings mode the handler splits the input on commas
and trims whitespace from each token but keeps empty tokens, and it fails
(with the headings-required error) only when the headings field is absent
or the empty string; otherwise it builds a schema whose properties keys
exactly equal the trimmed tokens in the order given whenever those tokens
are pairwise distinct — in general one key per distinct token in
first-occurrence order, a repeated token overwriting its earlier entry in
place — each property typed string, and whose required list is the full
trimmed token list in the order given. -/
theorem claim_C3_amended_headings (h : String) (hne : h ≠ "") :
    headingsStep none = Except.error "Headings are required in headings mode" ∧
    headingsStep (some "") = Except.error "Headings are required in headings mode" ∧
    headingsStep (some h) = Except.ok (buildHeadingsSchema h) ∧
    ((headingTokens h).Nodup →
      (headingProps (headingTokens h)).map Prod.fst = headingTokens h) ∧
    (headingProps (headingTokens h)).map Prod.fst = newKeys [] (headingTokens h) ∧
    (∀ p ∈ headingProps (headingTokens h),
      p.2 = JsVal.obj [("type", JsVal.str "string")]) ∧
    getProp (buildHeadingsSchema h) "properties" =
      some (JsVal.obj (headingProps (headingTokens h))) ∧
    getProp (buildHeadingsSchema h) "required" =
      some (JsVal.arr ((headingTokens h).map JsVal.str)) := by
  refine ⟨rfl, rfl, ?_, ?_, headingProps_keys _, ?_, rfl, rfl⟩
  · simp [headingsStep, hne]
  · intro hdn
    rw [headingProps_keys]
    exact newKeys_eq_self [] (headingTokens h) hdn (by simp)
  · intro p hp
    exact headingProps_values (headingTokens h) p hp

/-- Witness for C3 amended at the two-heading input, whose trimmed tokens
Name and Age are distinct, so the properties keys are exactly the tokens
in order. -/
theorem claim_C3_amended_headings_witness :
    headingsStep none = Except.error "Headings are required in headings mode" ∧
    headingsStep (some "") = Except.error "Headings are required in headings mode" ∧
    headingsStep (some "Name, Age") = Except.ok (buildHeadingsSchema "Name, Age") ∧
    ((headingTokens "Name, Age").Nodup →
      (headingProps (headingTokens "Name, Age")).map Prod.fst =
        headingTokens "Name, Age") ∧
    (headingProps (headingTokens "Name, Age")).map Prod.fst =
      newKeys [] (headingTokens "Name, Age") ∧
    (∀ p ∈ headingProps (headingTokens "Name, Age"),
      p.2 = JsVal.obj [("type", JsVal.str "string")]) ∧
    getProp (buildHeadingsSchema "Name, Age") "properties" =
      some (JsVal.obj (headingProps (headingTokens "Name, Age"))) ∧
    getProp (buildHeadingsSchema "Name, Age") "required" =
      some (JsVal.arr ((headingTokens "Name, Age").map JsVal.str)) :=
  claim_C3_amended_headings "Name, Age" (by decide)

/-- C4: whenever some declared property is present in the parsed response
with a value failing the reconciler type check (Array.isArray for a
declared array, typeof equality otherwise), reconciliation fails with an
error naming a mismatched field and its declared type, and never returns
a success value; the wrong-typed value is not replaced by a default, since
defaulting applies only to absent keys. -/
theorem claim_C4_present_mismatch_fails
    (props parsed : List (String × JsVal))
    (hnd : (props.map Prod.fst).Nodup)
    (ht : ∀ p ∈ props, ∃ s, s ∈ typeEnum ∧ getProp p.2 "type" = some (JsVal.str s))
    (hm : ∃ p ∈ props, ∃ a, parsed.lookup p.1 = some a ∧
        typeMatches (getProp p.2 "type") a = false) :
    ∃ k s a, (∃ v, (k, v) ∈ props ∧ getProp v "type" = some (JsVal.str s)) ∧
      parsed.lookup k = some a ∧ typeMatches (some (JsVal.str s)) a = false ∧
      reconcileFields props parsed =
        Except.error (if s = "array" then "Field " ++ k ++ " should be an array"
          else "Field " ++ k ++ " should be of type " ++ s) :=
  reconcileFields_error_of_mismatch props parsed hnd ht hm

/-- Witness for C4 at the worked example of the specification: schema with
a of type number and model output binding a to the string not-a-number;
reconciliation fails naming field a. -/
theorem claim_C4_present_mismatch_fails_witness :
    ∃ k s a,
      (∃ v, (k, v) ∈ [("a", JsVal.obj [("type", JsVal.str "number")])] ∧
        getProp v "type" = some (JsVal.str s)) ∧
      (([("a", JsVal.str "not-a-number")] : List (String × JsVal)).lookup k) = some a ∧
      typeMatches (some (JsVal.str s)) a = false ∧
      reconcileFields [("a", JsVal.obj [("type", JsVal.str "number")])]
          [("a", JsVal.str "not-a-number")] =
        Except.error (if s = "array" then "Field " ++ k ++ " should be an array"
          else "Field " ++ k ++ " should be of type " ++ s) :=
  claim_C4_present_mismatch_fails
    [("a", JsVal.obj [("type", JsVal.str "number")])]
    [("a", JsVal.str "not-a-number")]
    (by decide)
    (by
      intro p hp
      rcases List.mem_cons.mp hp with rfl | hp
      · exact ⟨"number", by decide, rfl⟩
      · cases hp)
    ⟨("a", JsVal.obj [("type", JsVal.str "number")]), List.mem_cons_self _ _,
      JsVal.str "not-a-number", lookup_cons_self _ _ _, rfl⟩

/-- C5: for every valid schema and every parsed mapping that already
conforms to its properties (each declared property present with a value
passing the reconciler type check), reconciliation succeeds and returns
the mapping unchanged. -/
theorem claim_C5_conformant_unchanged
    (schema : JsVal) (props parsed : List (String × JsVal))
    (_hv : validateSchema schema = Except.ok ())
    (_hp : getProp schema "properties" = some (JsVal.obj props))
    (hc : ∀ p ∈ props, ∃ a, parsed.lookup p.1 = some a ∧
        typeMatches (getProp p.2 "type") a = true) :
    reconcileFields props parsed = Except.ok parsed :=
  reconcileFields_conformant props parsed hc

/-- Witness for C5: a one-property string schema with a conformant
mapping reconciles to itself. -/
theorem claim_C5_conformant_unchanged_witness :
    reconcileFields [("a", JsVal.obj [("type", JsVal.str "string")])]
      [("a", JsVal.str "hello")] =
      Except.ok [("a", JsVal.str "hello")] :=
  claim_C5_conformant_unchanged
    (JsVal.obj
      [("type", JsVal.str "object"),
       ("properties", JsVal.obj [("a", JsVal.obj [("type", JsVal.str "string")])])])
    [("a", JsVal.obj [("type", JsVal.str "string")])]
    [("a", JsVal.str "hello")]
    rfl
    rfl
    (by
      intro p hp
      rcases List.mem_cons.mp hp with rfl | hp
      · exact ⟨JsVal.str "hello", lookup_cons_self _ _ _, rfl⟩
      · cases hp)



/-- C6 counterexample: a file part declared application/zip is dropped by
the formidable filter before processing, so with no accompanying text the
request fails with the content-required message, not with the
unsupported-file-type message the claim asserts. -/
theorem claim_C6_counterexample :
    docTextChecked (some { mimetype := some "application/zip", extractedText := "zip text" }) "" =
      Except.error "Document content is required" ∧
    (Except.error "Document content is required" : Except String String) ≠
      Except.error "Unsupported file type: application/zip" := by
  refine ⟨rfl, ?_⟩
  intro h
  rw [Except.error.injEq] at h
  exact absurd h (by decide)

/-- C6 amended: processFile routing does fail with the message
Unsupported file type: followed by the declared type for every media type
outside all accepted sets (exact string membership); but the formidable
filter of the handler drops such file parts before processFile can run, so
at the upload boundary the request behaves as if no file were sent — the
text field alone is used, and with empty text the failure is the
content-required error instead. -/
theorem claim_C6_amended_routing (m : String) (hm : findProcessor m = none) :
    routeFile m = Except.error ("Unsupported file type: " ++ m) ∧
    (∀ et text, docTextChecked (some { mimetype := some m, extractedText := et }) text =
      requireContent text) := by
  constructor
  · rw [routeFile, hm]
  · intro et text
    simp [docTextChecked, docTextStep, formFilter, hm]

/-- Witness for C6 amended at the declared type application/zip. -/
theorem claim_C6_amended_routing_witness :
    routeFile "application/zip" =
      Except.error ("Unsupported file type: " ++ "application/zip") ∧
    (∀ et text,
      docTextChecked (some { mimetype := some "application/zip", extractedText := et }) text =
        requireContent text) :=
  claim_C6_amended_routing "application/zip" (by decide)

/-- C7 counterexample: an image whose OCR returns empty text extracts
successfully (empty recognized text is not an extraction error), but the
pipeline then fails with the content-required error — it does not
continue as the claim asserts. -/
theorem claim_C7_counterexample :
    docTextStep (some { mimetype := some "image/png", extractedText := "" }) "" =
      Except.ok "" ∧
    docTextChecked (some { mimetype := some "image/png", extractedText := "" }) "" =
      Except.error "Document content is required" := ⟨rfl, rfl⟩

/-- C7 amended: the image extractor path treats empty recognized text as a
successful extraction, but the handler then rejects empty document text
with the content-required error, so an image whose OCR yields empty text
does produce a failure result; processing continues only when the
recognized text is non-empty. -/
theorem claim_C7_amended_empty_ocr (t : String) (ht : t ≠ "") :
    routeFile "image/png" = Except.ok FileKind.image ∧
    docTextStep (some { mimetype := some "image/png", extractedText := "" }) "" =
      Except.ok "" ∧
    docTextChecked (some { mimetype := some "image/png", extractedText := "" }) "" =
      Except.error "Document content is required" ∧
    docTextChecked (some { mimetype := some "image/png", extractedText := t }) "" =
      Except.ok t := by
  refine ⟨rfl, rfl, rfl, ?_⟩
  show requireContent t = Except.ok t
  simp [requireContent, ht]

/-- Witness for C7 amended at a non-empty recognized text. -/
theorem claim_C7_amended_empty_ocr_witness :
    routeFile "image/png" = Except.ok FileKind.image ∧
    docTextStep (some { mimetype := some "image/png", extractedText := "" }) "" =
      Except.ok "" ∧
    docTextChecked (some { mimetype := some "image/png", extractedText := "" }) "" =
      Except.error "Document content is required" ∧
    docTextChecked (some { mimetype := some "image/png", extractedText := "hello" }) "" =
      Except.ok "hello" :=
  claim_C7_amended_empty_ocr "hello" (by decide)



/-- C8: the reconciler accepts, for a property declared object, any
present value whose typeof is the string object — including null and
arrays — returning it verbatim in the success mapping, while a present
null for a string-, number- or boolean-typed property fails with the
field-naming type error. -/
theorem claim_C8_object_accepts_null
    (k : String) (val : JsVal) (hobj : typeofJs val = "object") :
    reconcileFields [(k, JsVal.obj [("type", JsVal.str "object")])] [(k, val)] =
      Except.ok [(k, val)] ∧
    reconcileFields [(k, JsVal.obj [("type", JsVal.str "string")])] [(k, JsVal.null)] =
      Except.error ("Field " ++ k ++ " should be of type string") ∧
    reconcileFields [(k, JsVal.obj [("type", JsVal.str "number")])] [(k, JsVal.null)] =
      Except.error ("Field " ++ k ++ " should be of type number") ∧
    reconcileFields [(k, JsVal.obj [("type", JsVal.str "boolean")])] [(k, JsVal.null)] =
      Except.error ("Field " ++ k ++ " should be of type boolean") := by
  refine ⟨?_, ?_, ?_, ?_⟩
  · simp [reconcileFields, reconcileStep, getProp, lookup_cons_self,
      typeCheckField, hobj, Except.map]
  · simp [reconcileFields, reconcileStep, getProp, lookup_cons_self,
      typeCheckField, typeofJs, Except.map]
    rw [String.append_assoc]
    rfl
  · simp [reconcileFields, reconcileStep, getProp, lookup_cons_self,
      typeCheckField, typeofJs, Except.map]
    rw [String.append_assoc]
    rfl
  · simp [reconcileFields, reconcileStep, getProp, lookup_cons_self,
      typeCheckField, typeofJs, Except.map]
    rw [String.append_assoc]
    rfl

/-- Witness for C8 at the field a with the present value null (typeof
null is the string object). -/
theorem claim_C8_object_accepts_null_witness :
    reconcileFields [("a", JsVal.obj [("type", JsVal.str "object")])] [("a", JsVal.null)] =
      Except.ok [("a", JsVal.null)] ∧
    reconcileFields [("a", JsVal.obj [("type", JsVal.str "string")])] [("a", JsVal.null)] =
      Except.error ("Field " ++ "a" ++ " should be of type string") ∧
    reconcileFields [("a", JsVal.obj [("type", JsVal.str "number")])] [("a", JsVal.null)] =
      Except.error ("Field " ++ "a" ++ " should be of type number") ∧
    reconcileFields [("a", JsVal.obj [("type", JsVal.str "boolean")])] [("a", JsVal.null)] =
      Except.error ("Field " ++ "a" ++ " should be of type boolean") :=
  claim_C8_object_accepts_null "a" JsVal.null rfl

/-- C9: an absent or empty model reply content is replaced by the
empty-object literal rather than failing to parse, and reconciling the
resulting empty object against any schema properties object with distinct
keys and enumerated type tags succeeds with every declared property bound
to its type-appropriate default — no not-JSON failure arises for an empty
reply. -/
theorem claim_C9_empty_reply_defaults
    (props : List (String × JsVal))
    (hnd : (props.map Prod.fst).Nodup)
    (ht : ∀ p ∈ props, ∃ s, s ∈ typeEnum ∧ getProp p.2 "type" = some (JsVal.str s)) :
    effectiveReplyText none = "\x7b\x7d" ∧
    effectiveReplyText (some "") = "\x7b\x7d" ∧
    ∃ m, reconcileFields props emptyParsedReply = Except.ok m ∧
      ∀ p ∈ props, m.lookup p.1 = some (defaultFor (getProp p.2 "type")) := by
  refine ⟨rfl, rfl, ?_⟩
  obtain ⟨m, hok, hpres, hdef⟩ := reconcileFields_ok props emptyParsedReply hnd ht
    (fun p hp a ha => by simp [emptyParsedReply, List.lookup] at ha)
  exact ⟨m, hok, fun p hp => hdef p hp rfl⟩

/-- Witness for C9 at a one-property boolean schema. -/
theorem claim_C9_empty_reply_defaults_witness :
    effectiveReplyText none = "\x7b\x7d" ∧
    effectiveReplyText (some "") = "\x7b\x7d" ∧
    ∃ m, reconcileFields [("x", JsVal.obj [("type", JsVal.str "boolean")])]
        emptyParsedReply = Except.ok m ∧
      ∀ p ∈ [("x", JsVal.obj [("type", JsVal.str "boolean")])],
        m.lookup p.1 = some (defaultFor (getProp p.2 "type")) :=
  claim_C9_empty_reply_defaults
    [("x", JsVal.obj [("type", JsVal.str "boolean")])]
    (by decide)
    (by
      intro p hp
      rcases List.mem_cons.mp hp with rfl | hp
      · exact ⟨"boolean", by decide, rfl⟩
      · cases hp)

/-- C10: when the trimmed heading tokens contain duplicates, the built
properties object has exactly one key per distinct token (repeated
assignment overwrites), its required list keeps every occurrence in
order, and the required length — the full token count — strictly exceeds
the number of property keys. -/
theorem claim_C10_duplicate_headings (s : String)
    (hdup : ¬ (headingTokens s).Nodup) :
    ((headingProps (headingTokens s)).map Prod.fst).Nodup ∧
    (∀ x, x ∈ (headingProps (headingTokens s)).map Prod.fst ↔ x ∈ headingTokens s) ∧
    getProp (buildHeadingsSchema s) "required" =
      some (JsVal.arr ((headingTokens s).map JsVal.str)) ∧
    ((headingTokens s).map JsVal.str).length = (headingTokens s).length ∧
    ((headingProps (headingTokens s)).map Prod.fst).length < (headingTokens s).length := by
  rw [headingProps_keys]
  refine ⟨newKeys_nodup _ _, ?_, rfl, List.length_map _ _,
    newKeys_length_lt_of_dup [] _ hdup⟩
  intro x
  rw [mem_newKeys]
  simp

/-- Witness for C10 at the duplicated heading input. -/
theorem claim_C10_duplicate_headings_witness :
    ((headingProps (headingTokens "a,a")).map Prod.fst).Nodup ∧
    (∀ x, x ∈ (headingProps (headingTokens "a,a")).map Prod.fst ↔
      x ∈ headingTokens "a,a") ∧
    getProp (buildHeadingsSchema "a,a") "required" =
      some (JsVal.arr ((headingTokens "a,a").map JsVal.str)) ∧
    ((headingTokens "a,a").map JsVal.str).length = (headingTokens "a,a").length ∧
    ((headingProps (headingTokens "a,a")).map Prod.fst).length <
      (headingTokens "a,a").length :=
  claim_C10_duplicate_headings "a,a" (by decide)

end Extract
